import Mathlib

/-!
Verification of the session-engine core of the mautrix-go fork
(iKonoTelecomunicaciones/go): a shallow embedding of the SQL crypto store
(replay-protection ledger, olm pairwise-session queries, megolm inbound
group-session table), the sync-time decryption retry queue, cross-signing
key export/import, and the megolm session-export wire format, with theorems
about each.

Database tables are modelled as association lists; SQL reads/writes become
pure functions on them.  Pickling of opaque ratchet state is modelled as the
identity on the stored byte blob (the pickle key never varies within one
store).  Machine integers are modelled as `Nat`/`Int`, with `% 2 ^ 32` where
a Go `uint32` truncates.
-/

/- ## Replay-protection ledger: the crypto_message_index table -/

/-- Primary key of the crypto_message_index table:
(sender_key, session_id, "index"). -/
structure MessageIndexKey where
  senderKey : String
  sessionID : String
  index : Nat
deriving DecidableEq

/-- The (event_id, timestamp) binding that the first arrival stores for a
message-index key. -/
structure MessageIndexValue where
  eventID : String
  timestamp : Int
deriving DecidableEq

/-- The crypto_message_index table, one row per key. -/
abbrev MessageIndexLedger := List (MessageIndexKey × MessageIndexValue)

/-- Row lookup by primary key. -/
def ledgerLookup : MessageIndexLedger → MessageIndexKey → Option MessageIndexValue
  | [], _ => none
  | e :: rest, k => if e.1 = k then some e.2 else ledgerLookup rest k

/-- SQLCryptoStore.ValidateMessageIndex: conflict-aware insert of
(senderKey, sessionID, index) -> (eventID, timestamp).  On conflict the SQL
upsert only rewrites sender_key with itself, so RETURNING always yields the
binding already stored; that stored binding is then compared with the
arguments, accepting only an exact match.  Returns the verdict and the
ledger afterwards. -/
def validateMessageIndex (ledger : MessageIndexLedger) (senderKey sessionID : String)
    (index : Nat) (eventID : String) (timestamp : Int) : Bool × MessageIndexLedger :=
  let key : MessageIndexKey := ⟨senderKey, sessionID, index⟩
  match ledgerLookup ledger key with
  | none => (true, (key, ⟨eventID, timestamp⟩) :: ledger)
  | some stored =>
      (decide (stored.eventID = eventID) && decide (stored.timestamp = timestamp), ledger)

/- ## Olm pairwise sessions: the crypto_olm_session table -/

/-- A row of the crypto_olm_session table (one account scope). -/
structure OlmSessionRow where
  sessionID : String
  senderKey : String
  pickled : List Nat
  createdAt : Int
  lastEncrypted : Int
  lastDecrypted : Int
deriving DecidableEq

/-- The crypto_olm_session table. -/
abbrev OlmSessionTable := List OlmSessionRow

/-- The ORDER BY last_decrypted DESC ordering used by GetSessions and
GetLatestSession. -/
def olmSessionOrder (a b : OlmSessionRow) : Prop :=
  b.lastDecrypted ≤ a.lastDecrypted

instance : DecidableRel olmSessionOrder :=
  fun a b => inferInstanceAs (Decidable (b.lastDecrypted ≤ a.lastDecrypted))

instance : IsTotal OlmSessionRow olmSessionOrder :=
  ⟨fun a b => le_total b.lastDecrypted a.lastDecrypted⟩

instance : IsTrans OlmSessionRow olmSessionOrder :=
  ⟨fun _ _ _ hab hbc => le_trans hbc hab⟩

/-- SQLCryptoStore.GetSessions: every row with the given sender key,
ORDER BY last_decrypted DESC. -/
def getSessions (db : OlmSessionTable) (key : String) : List OlmSessionRow :=
  List.insertionSort olmSessionOrder (db.filter (fun r => decide (r.senderKey = key)))

/-- SQLCryptoStore.GetLatestSession: the same query with LIMIT 1 (none when
no session exists for the sender key). -/
def getLatestSession (db : OlmSessionTable) (key : String) : Option OlmSessionRow :=
  (List.insertionSort olmSessionOrder
    (db.filter (fun r => decide (r.senderKey = key)))).head?

/-- C1: for every (senderKey, sessionID, index) triple, the first
ValidateMessageIndex call stores the supplied (eventID, timestamp) binding
and returns true; every later call with the same triple returns true exactly
when both eventID and timestamp match the stored binding, and the ledger —
in particular the stored binding — is never changed by such a later call. -/
theorem validateMessageIndex_spec (ledger : MessageIndexLedger) (sk sid : String)
    (idx : Nat) (eid : String) (ts : Int) :
    (ledgerLookup ledger ⟨sk, sid, idx⟩ = none →
      (validateMessageIndex ledger sk sid idx eid ts).1 = true ∧
      ledgerLookup (validateMessageIndex ledger sk sid idx eid ts).2 ⟨sk, sid, idx⟩
        = some ⟨eid, ts⟩) ∧
    (∀ stored, ledgerLookup ledger ⟨sk, sid, idx⟩ = some stored →
      ((validateMessageIndex ledger sk sid idx eid ts).1 = true ↔
        stored.eventID = eid ∧ stored.timestamp = ts) ∧
      (validateMessageIndex ledger sk sid idx eid ts).2 = ledger) := by
  constructor
  · intro h
    constructor
    · simp [validateMessageIndex, h]
    · simp [validateMessageIndex, h, ledgerLookup]
  · intro stored h
    constructor
    · simp [validateMessageIndex, h]
    · simp [validateMessageIndex, h]

/-- C1 witness: at (sk, session 7, index 3) the first delivery of event A is
accepted, an identical redelivery is accepted, and a different event B at the
same index is rejected. -/
theorem validateMessageIndex_spec_witness :
    (validateMessageIndex [] "sk" "s7" 3 "evA" 11).1 = true ∧
    (validateMessageIndex (validateMessageIndex [] "sk" "s7" 3 "evA" 11).2
        "sk" "s7" 3 "evA" 11).1 = true ∧
    (validateMessageIndex (validateMessageIndex [] "sk" "s7" 3 "evA" 11).2
        "sk" "s7" 3 "evB" 12).1 = false := by
  refine ⟨((validateMessageIndex_spec [] "sk" "s7" 3 "evA" 11).1 rfl).1, ?_, ?_⟩
  · decide
  · decide

/-- C4: GetSessions returns the stored sessions for a sender key ordered by
last-successful-decrypt time descending (a sorted permutation of the rows
with that sender key), GetLatestSession is exactly the head of that same
ordering, and it is none when no row matches. -/
theorem getSessions_getLatestSession_spec (db : OlmSessionTable) (key : String) :
    List.Sorted olmSessionOrder (getSessions db key) ∧
    List.Perm (getSessions db key) (db.filter (fun r => decide (r.senderKey = key))) ∧
    getLatestSession db key = (getSessions db key).head? ∧
    (db.filter (fun r => decide (r.senderKey = key)) = [] → getLatestSession db key = none) := by
  refine ⟨List.sorted_insertionSort olmSessionOrder _,
    List.perm_insertionSort olmSessionOrder _, rfl, ?_⟩
  intro h
  simp [getLatestSession, h]

/-- C4 witness: with two sessions for key k, the LIMIT 1 read agrees with the
head of the ordered list (concretely, the session decrypted most recently). -/
theorem getSessions_getLatestSession_spec_witness :
    getLatestSession [⟨"a", "k", [], 0, 0, 5⟩, ⟨"b", "k", [], 0, 0, 9⟩] "k"
      = (getSessions [⟨"a", "k", [], 0, 0, 5⟩, ⟨"b", "k", [], 0, 0, 9⟩] "k").head? ∧
    getLatestSession [⟨"a", "k", [], 0, 0, 5⟩, ⟨"b", "k", [], 0, 0, 9⟩] "k"
      = some ⟨"b", "k", [], 0, 0, 9⟩ :=
  ⟨(getSessions_getLatestSession_spec
      [⟨"a", "k", [], 0, 0, 5⟩, ⟨"b", "k", [], 0, 0, 9⟩] "k").2.2.1, by decide⟩

/- ## Megolm inbound group sessions: the crypto_megolm_inbound_session table -/

/-- A row of the crypto_megolm_inbound_session table (one account scope).
Nullable columns are Options; the pickled session blob is the opaque ratchet
state. -/
structure MegolmRow where
  sessionID : String
  senderKey : Option String
  signingKey : Option String
  roomID : String
  session : Option (List Nat)
  forwardingChains : Option String
  ratchetSafety : List Nat
  receivedAt : Option Int
  maxAge : Option Int
  maxMessages : Option Int
  isScheduled : Bool
  keyBackupVersion : String
  withheldCode : Option String
  withheldReason : Option String
deriving DecidableEq

/-- The crypto_megolm_inbound_session table. -/
abbrev MegolmTable := List MegolmRow

/-- An in-memory InboundGroupSession as PutGroupSession receives it.
Internal is the opaque ratchet state; Pickle/Unpickle are modelled as the
identity on it.  sessionID stands for session.ID(), which is derived from
the ratchet state. -/
structure InboundGroupSession where
  sessionID : String
  internal : List Nat
  signingKey : String
  senderKey : String
  roomID : String
  forwardingChains : List String
  ratchetSafety : List Nat
  receivedAt : Int
  maxAge : Int
  maxMessages : Int
  isScheduled : Bool
  keyBackupVersion : String
deriving DecidableEq

/-- datePtr: NULL for the zero time (Go time.Time zero value modelled as 0). -/
def datePtr (t : Int) : Option Int :=
  if t = 0 then none else some t

/-- dbutil.NumPtr: NULL for a zero number. -/
def numPtr (n : Int) : Option Int :=
  if n = 0 then none else some n

/-- The row PutGroupSession writes: every data column from the session with
the withheld columns NULL (the insert omits them; the ON CONFLICT clause
sets withheld_code=NULL, withheld_reason=NULL explicitly). -/
def putRow (s : InboundGroupSession) : MegolmRow where
  sessionID := s.sessionID
  senderKey := some s.senderKey
  signingKey := some s.signingKey
  roomID := s.roomID
  session := some s.internal
  forwardingChains := some (String.intercalate "," s.forwardingChains)
  ratchetSafety := s.ratchetSafety
  receivedAt := datePtr s.receivedAt
  maxAge := numPtr s.maxAge
  maxMessages := numPtr s.maxMessages
  isScheduled := s.isScheduled
  keyBackupVersion := s.keyBackupVersion
  withheldCode := none
  withheldReason := none

/-- SQLCryptoStore.PutGroupSession: INSERT ... ON CONFLICT (session_id,
account_id) DO UPDATE, replacing every data column and clearing any prior
withheld code and reason. -/
def putGroupSession (db : MegolmTable) (s : InboundGroupSession) : MegolmTable :=
  if db.any (fun r => decide (r.sessionID = s.sessionID)) then
    db.map (fun r => if r.sessionID = s.sessionID then putRow s else r)
  else db ++ [putRow s]

/-- event.RoomKeyWithheldBeeperRedacted.  Modelled from the spec: the event
package defining the withheld-code constants is not among the staged files;
redaction is specified to mark the row with a fixed withheld reason code,
and no claim depends on the exact string. -/
def roomKeyWithheldBeeperRedacted : String := "com.beeper.redacted"

/-- The SET clause every redaction query applies: withheld code and reason
set, session state and forwarding chains nulled, all in one UPDATE. -/
def redactRow (r : MegolmRow) (reason : String) : MegolmRow :=
  { r with
    withheldCode := some roomKeyWithheldBeeperRedacted
    withheldReason := some ("Session redacted: " ++ reason)
    session := none
    forwardingChains := none }

/-- Per-row effect of SQLCryptoStore.RedactGroupSession: UPDATE ... WHERE
session_id=sid AND session IS NOT NULL. -/
def redactStep (sessionID reason : String) (r : MegolmRow) : MegolmRow :=
  if r.sessionID = sessionID ∧ r.session ≠ none then redactRow r reason else r

/-- SQLCryptoStore.RedactGroupSession (the room ID argument is unused by the
query). -/
def redactGroupSession (db : MegolmTable) (sessionID reason : String) : MegolmTable :=
  db.map (redactStep sessionID reason)

/-- WHERE clause of RedactExpiredGroupSessions (Postgres dialect): a live,
unscheduled session whose receipt time plus twice its max age lies before
now.  Times and ages are in milliseconds. -/
def expiredQueryMatch (now : Int) (r : MegolmRow) : Bool :=
  r.session.isSome && !r.isScheduled &&
    (match r.receivedAt, r.maxAge with
     | some t, some m => decide (t + 2 * m < now)
     | _, _ => false)

/-- SQLCryptoStore.RedactExpiredGroupSessions (Postgres dialect): one UPDATE
over the table applying the redaction SET clause to every matching row,
RETURNING the redacted session_ids. -/
def redactExpiredGroupSessions (now : Int) : MegolmTable → MegolmTable × List String
  | [] => ([], [])
  | r :: rest =>
    let next := redactExpiredGroupSessions now rest
    if expiredQueryMatch now r then
      (redactRow r "expired" :: next.1, r.sessionID :: next.2)
    else (r :: next.1, next.2)

/-- WHERE clause of RedactOutdatedGroupSessions: a live session with no
receipt timestamp recorded. -/
def outdatedQueryMatch (r : MegolmRow) : Bool :=
  r.session.isSome && r.receivedAt.isNone

/-- SQLCryptoStore.RedactOutdatedGroupSessions: one UPDATE over the table,
RETURNING the redacted session_ids. -/
def redactOutdatedGroupSessions : MegolmTable → MegolmTable × List String
  | [] => ([], [])
  | r :: rest =>
    let next := redactOutdatedGroupSessions rest
    if outdatedQueryMatch r then
      (redactRow r "outdated" :: next.1, r.sessionID :: next.2)
    else (r :: next.1, next.2)

/-- The WHERE clause of GetGroupSession: room_id and session_id both match. -/
def groupSessionRowMatch (roomID sessionID : String) (r : MegolmRow) : Bool :=
  decide (r.roomID = roomID) && decide (r.sessionID = sessionID)

/-- Errors GetGroupSession can return: the stored withheld event content, or
a failure to revive the pickled state (unpickling NULL fails). -/
inductive GroupSessionError where
  | withheld (roomID sessionID senderKey code reason : String)
  | corruptSession
deriving DecidableEq

/-- postScanInboundGroupSession's forwarding-chain split: empty string means
no chains. -/
def splitForwardingChains (s : String) : List String :=
  if s = "" then [] else s.splitOn ","

/-- SQLCryptoStore.GetGroupSession: no row is (nil, nil), modelled ok none; a
row with a withheld code is (nil, RoomKeyWithheldEventContent), modelled as
the withheld error carrying the stored code and reason; otherwise the
pickled session is revived (NULL state cannot be unpickled and errors). -/
def getGroupSession (db : MegolmTable) (roomID sessionID : String) :
    Except GroupSessionError (Option InboundGroupSession) :=
  match db.find? (groupSessionRowMatch roomID sessionID) with
  | none => Except.ok none
  | some r =>
    match r.withheldCode with
    | some code =>
        Except.error (GroupSessionError.withheld roomID sessionID (r.senderKey.getD "")
          code (r.withheldReason.getD ""))
    | none =>
      match r.session with
      | some ratchet =>
          Except.ok (some
            { sessionID := sessionID
              internal := ratchet
              signingKey := r.signingKey.getD ""
              senderKey := r.senderKey.getD ""
              roomID := roomID
              forwardingChains := splitForwardingChains (r.forwardingChains.getD "")
              ratchetSafety := r.ratchetSafety
              receivedAt := r.receivedAt.getD 0
              maxAge := r.maxAge.getD 0
              maxMessages := r.maxMessages.getD 0
              isScheduled := r.isScheduled
              keyBackupVersion := r.keyBackupVersion })
      | none => Except.error GroupSessionError.corruptSession

/-- The withheld/present exclusivity invariant of a stored row: ratchet state
is non-null exactly when the withheld code is null. -/
def withheldExclusive (r : MegolmRow) : Prop :=
  r.session.isSome = true ↔ r.withheldCode = none

/-- C3: a freshly upserted row carries the new non-null session state with
both withheld columns cleared; the withheld/present exclusivity invariant is
preserved by PutGroupSession and by RedactGroupSession; and the redaction
step sets the withheld code only while simultaneously nulling the session
state. -/
theorem withheldExclusive_spec (db : MegolmTable) (s : InboundGroupSession)
    (sid reason : String) :
    (∀ r ∈ putGroupSession db s, r.sessionID = s.sessionID →
      r.withheldCode = none ∧ r.withheldReason = none ∧ r.session = some s.internal) ∧
    ((∀ r ∈ db, withheldExclusive r) → ∀ r ∈ putGroupSession db s, withheldExclusive r) ∧
    ((∀ r ∈ db, withheldExclusive r) →
      ∀ r ∈ redactGroupSession db sid reason, withheldExclusive r) ∧
    (∀ r, (redactStep sid reason r).withheldCode ≠ r.withheldCode →
      (redactStep sid reason r).session = none ∧
      (redactStep sid reason r).withheldCode = some roomKeyWithheldBeeperRedacted) := by
  refine ⟨?_, ?_, ?_, ?_⟩
  · intro r hr hrid
    unfold putGroupSession at hr
    split at hr
    · rcases List.mem_map.1 hr with ⟨r0, hr0, heq⟩
      by_cases h0 : r0.sessionID = s.sessionID
      · rw [if_pos h0] at heq
        subst heq
        exact ⟨rfl, rfl, rfl⟩
      · rw [if_neg h0] at heq
        subst heq
        exact absurd hrid h0
    · rename_i hany
      rcases List.mem_append.1 hr with hmem | hmem
      · exact absurd (List.any_eq_true.2 ⟨r, hmem, decide_eq_true hrid⟩) hany
      · simp only [List.mem_singleton] at hmem
        subst hmem
        exact ⟨rfl, rfl, rfl⟩
  · intro hinv r hr
    unfold putGroupSession at hr
    split at hr
    · rcases List.mem_map.1 hr with ⟨r0, hr0, heq⟩
      by_cases h0 : r0.sessionID = s.sessionID
      · rw [if_pos h0] at heq
        subst heq
        simp [withheldExclusive, putRow]
      · rw [if_neg h0] at heq
        subst heq
        exact hinv r0 hr0
    · rcases List.mem_append.1 hr with hmem | hmem
      · exact hinv r hmem
      · simp only [List.mem_singleton] at hmem
        subst hmem
        simp [withheldExclusive, putRow]
  · intro hinv r hr
    rcases List.mem_map.1 hr with ⟨r0, hr0, heq⟩
    subst heq
    unfold redactStep
    by_cases h0 : r0.sessionID = sid ∧ r0.session ≠ none
    · rw [if_pos h0]
      simp [withheldExclusive, redactRow]
    · rw [if_neg h0]
      exact hinv r0 hr0
  · intro r hchanged
    by_cases h0 : r.sessionID = sid ∧ r.session ≠ none
    · unfold redactStep
      rw [if_pos h0]
      exact ⟨rfl, rfl⟩
    · exact absurd (by unfold redactStep; rw [if_neg h0]) hchanged

/-- An in-memory inbound group session used as concrete input. -/
def igsEx : InboundGroupSession where
  sessionID := "ses1"
  internal := [1, 2, 3]
  signingKey := "sign"
  senderKey := "send"
  roomID := "!room"
  forwardingChains := []
  ratchetSafety := []
  receivedAt := 50
  maxAge := 100
  maxMessages := 10
  isScheduled := false
  keyBackupVersion := "1"

/-- C3 witness: upserting igsEx into an empty table yields its row with
non-null state and no withheld marker. -/
theorem withheldExclusive_spec_witness :
    (putRow igsEx).withheldCode = none ∧ (putRow igsEx).withheldReason = none ∧
    (putRow igsEx).session = some igsEx.internal :=
  (withheldExclusive_spec [] igsEx "x" "y").1 (putRow igsEx)
    (by simp [putGroupSession]) rfl

/-- Applying the redaction step twice to a row equals applying it once: a
redacted row has NULL session state, so the WHERE clause no longer matches. -/
theorem redactStep_idem (sid reason : String) (r : MegolmRow) :
    redactStep sid reason (redactStep sid reason r) = redactStep sid reason r := by
  by_cases h : r.sessionID = sid ∧ r.session ≠ none
  · have h1 : redactStep sid reason r = redactRow r reason := if_pos h
    rw [h1]
    unfold redactStep
    exact if_neg (fun hc => hc.2 rfl)
  · have h1 : redactStep sid reason r = r := if_neg h
    rw [h1]
    exact h1

/-- C7: RedactGroupSession is idempotent — redacting the same session id a
second time (with the same reason) leaves every row of the table exactly as
after the first call, the withheld code and reason included; the operation
itself reports no error. -/
theorem redactGroupSession_idempotent (db : MegolmTable) (sid reason : String) :
    redactGroupSession (redactGroupSession db sid reason) sid reason
      = redactGroupSession db sid reason := by
  unfold redactGroupSession
  rw [List.map_map]
  exact List.map_congr_left (fun r _ => redactStep_idem sid reason r)

/-- RedactExpiredGroupSessions is the relational UPDATE ... RETURNING it
implements: every matching row redacted in place, the matching session ids
returned in table order. -/
theorem redactExpiredGroupSessions_eq (now : Int) (db : MegolmTable) :
    redactExpiredGroupSessions now db =
      (db.map (fun r => if expiredQueryMatch now r then redactRow r "expired" else r),
       (db.filter (expiredQueryMatch now)).map (fun r => r.sessionID)) := by
  induction db with
  | nil => rfl
  | cons r rest ih =>
    by_cases h : expiredQueryMatch now r = true
    · simp [redactExpiredGroupSessions, ih, h]
    · simp [redactExpiredGroupSessions, ih, h]

/-- RedactOutdatedGroupSessions is the relational UPDATE ... RETURNING it
implements. -/
theorem redactOutdatedGroupSessions_eq (db : MegolmTable) :
    redactOutdatedGroupSessions db =
      (db.map (fun r => if outdatedQueryMatch r then redactRow r "outdated" else r),
       (db.filter outdatedQueryMatch).map (fun r => r.sessionID)) := by
  induction db with
  | nil => rfl
  | cons r rest ih =>
    by_cases h : outdatedQueryMatch r = true
    · simp [redactOutdatedGroupSessions, ih, h]
    · simp [redactOutdatedGroupSessions, ih, h]

/-- C5 (amended): RedactExpiredGroupSessions transitions to withheld exactly
the live, unscheduled sessions with a receipt timestamp and a max-age
recorded whose receipt timestamp lies more than 2 x max_age in the past
(Postgres dialect), RedactOutdatedGroupSessions exactly the live sessions
with no receipt timestamp; each returns precisely the session ids it
redacted, and the redaction sets the withheld code and reason while nulling
the session state. -/
theorem redactExpiredOutdatedGroupSessions_spec (now : Int) (db : MegolmTable) :
    (redactExpiredGroupSessions now db).2
        = (db.filter (expiredQueryMatch now)).map (fun r => r.sessionID) ∧
    (redactExpiredGroupSessions now db).1
        = db.map (fun r => if expiredQueryMatch now r then redactRow r "expired" else r) ∧
    (redactOutdatedGroupSessions db).2
        = (db.filter outdatedQueryMatch).map (fun r => r.sessionID) ∧
    (redactOutdatedGroupSessions db).1
        = db.map (fun r => if outdatedQueryMatch r then redactRow r "outdated" else r) ∧
    (∀ r reason, (redactRow r reason).session = none ∧
      (redactRow r reason).withheldCode = some roomKeyWithheldBeeperRedacted ∧
      (redactRow r reason).withheldReason = some ("Session redacted: " ++ reason)) := by
  refine ⟨?_, ?_, ?_, ?_, fun r reason => ⟨rfl, rfl, rfl⟩⟩
  · rw [redactExpiredGroupSessions_eq]
  · rw [redactExpiredGroupSessions_eq]
  · rw [redactOutdatedGroupSessions_eq]
  · rw [redactOutdatedGroupSessions_eq]

/-- A scheduled session old enough to satisfy the claim's 2 x max_age bound. -/
def scheduledExpiredRow : MegolmRow where
  sessionID := "sched"
  senderKey := some "send"
  signingKey := some "sign"
  roomID := "!room"
  session := some [1]
  forwardingChains := some ""
  ratchetSafety := []
  receivedAt := some 0
  maxAge := some 1
  maxMessages := some 100
  isScheduled := true
  keyBackupVersion := "1"
  withheldCode := none
  withheldReason := none

/-- The rows C5 literally says RedactExpiredGroupSessions redacts, stated
from the claim's words alone: non-null state, receipt timestamp more than
2 x max_age in the past (the claim names no scheduling condition). -/
def expiredPerClaim (now : Int) (r : MegolmRow) : Bool :=
  r.session.isSome &&
    (match r.receivedAt, r.maxAge with
     | some t, some m => decide (t + 2 * m < now)
     | _, _ => false)

/-- C5 counterexample: at time 100, the scheduled row satisfies the claim's
expiry condition, yet the query redacts nothing and leaves the row intact,
because the WHERE clause also requires is_scheduled=false. -/
theorem redactExpiredGroupSessions_claim_counterexample :
    expiredPerClaim 100 scheduledExpiredRow = true ∧
    (redactExpiredGroupSessions 100 [scheduledExpiredRow]).2 = [] ∧
    (redactExpiredGroupSessions 100 [scheduledExpiredRow]).1 = [scheduledExpiredRow] := by
  refine ⟨by decide, by decide, by decide⟩

/-- The same row, unscheduled. -/
def unscheduledExpiredRow : MegolmRow :=
  { scheduledExpiredRow with sessionID := "unsched", isScheduled := false }

/-- C5 witness: the unscheduled variant of the same row is redacted and its
session id returned. -/
theorem redactExpiredOutdatedGroupSessions_spec_witness :
    (redactExpiredGroupSessions 100 [unscheduledExpiredRow]).2 = ["unsched"] := by
  rw [(redactExpiredOutdatedGroupSessions_spec 100 [unscheduledExpiredRow]).1]
  decide

/-- C10: GetGroupSession distinguishes the three stored states — no row gives
(nil session, nil error); a withheld row gives a nil session and an error
carrying the stored withheld code and reason; and a non-nil session is
returned only from a row with a null withheld code whose non-null ratchet
state is the returned session's. -/
theorem getGroupSession_spec (db : MegolmTable) (roomID sessionID : String) :
    (db.find? (groupSessionRowMatch roomID sessionID) = none →
      getGroupSession db roomID sessionID = Except.ok none) ∧
    (∀ r code, db.find? (groupSessionRowMatch roomID sessionID) = some r →
      r.withheldCode = some code →
      getGroupSession db roomID sessionID = Except.error
        (GroupSessionError.withheld roomID sessionID (r.senderKey.getD "") code
          (r.withheldReason.getD ""))) ∧
    (∀ s, getGroupSession db roomID sessionID = Except.ok (some s) →
      ∃ r, db.find? (groupSessionRowMatch roomID sessionID) = some r ∧
        r.withheldCode = none ∧ r.session = some s.internal) := by
  refine ⟨?_, ?_, ?_⟩
  · intro h
    simp [getGroupSession, h]
  · intro r code hfind hcode
    simp [getGroupSession, hfind, hcode]
  · intro s hok
    cases hfind : db.find? (groupSessionRowMatch roomID sessionID) with
    | none => simp [getGroupSession, hfind] at hok
    | some r =>
      cases hcode : r.withheldCode with
      | some code => simp [getGroupSession, hfind, hcode] at hok
      | none =>
        cases hsess : r.session with
        | none => simp [getGroupSession, hfind, hcode, hsess] at hok
        | some ratchet =>
          simp only [getGroupSession, hfind, hcode, hsess] at hok
          refine ⟨r, rfl, hcode, ?_⟩
          simp only [Except.ok.injEq, Option.some.injEq] at hok
          rw [hsess, ← hok]

/-- A stored withheld row used as concrete input. -/
def withheldRowEx : MegolmRow where
  sessionID := "sesW"
  senderKey := some "sendW"
  signingKey := none
  roomID := "!roomW"
  session := none
  forwardingChains := none
  ratchetSafety := []
  receivedAt := some 10
  maxAge := none
  maxMessages := none
  isScheduled := false
  keyBackupVersion := ""
  withheldCode := some "m.unverified"
  withheldReason := some "untrusted device"

/-- C10 witness: reading the withheld row returns the withheld error with the
stored code and reason. -/
theorem getGroupSession_spec_witness :
    getGroupSession [withheldRowEx] "!roomW" "sesW" = Except.error
      (GroupSessionError.withheld "!roomW" "sesW" "sendW" "m.unverified"
        "untrusted device") :=
  (getGroupSession_spec [withheldRowEx] "!roomW" "sesW").2.1 withheldRowEx
    "m.unverified" rfl rfl

/- ## Sync-time decryption failures and the retry queue (hicli/sync.go) -/

/-- Decryption errors the sync pipeline distinguishes.  The first three are
the sentinel errors isDecryptionErrorRetryable matches with errors.Is
(crypto.NoSessionFound, olm.UnknownMessageIndex,
crypto.ErrGroupSessionWithheld); the others stand for the remaining,
terminal decryption errors. -/
inductive DecryptionError where
  | noSessionFound
  | unknownMessageIndex
  | groupSessionWithheld
  | duplicateMessageIndex
  | badSignature
  | other (message : String)
deriving DecidableEq

/-- hicli.isDecryptionErrorRetryable. -/
def isDecryptionErrorRetryable : DecryptionError → Bool
  | DecryptionError.noSessionFound => true
  | DecryptionError.unknownMessageIndex => true
  | DecryptionError.groupSessionWithheld => true
  | _ => false

/-- Modelled from the spec: the RetryQueue entry (database.SessionRequest of
hicli/database, whose Go definition is not among the staged files).  The
spec gives it a room id, session id, sender and minimum-observed-index; the
index field is a Go uint32, so a composite literal that omits it leaves it
zero-valued. -/
structure SessionRequest where
  roomID : String
  sessionID : String
  sender : String
  minIndex : Nat
deriving DecidableEq

/-- The per-sync decryptionQueue map from megolm session id to its pending
SessionRequest. -/
abbrev DecryptionQueue := List (String × SessionRequest)

/-- Go map read. -/
def queueLookup : DecryptionQueue → String → Option SessionRequest
  | [], _ => none
  | e :: rest, sid => if e.1 = sid then some e.2 else queueLookup rest sid

/-- Go map write (replace the entry for the key, else add it). -/
def queueInsert : DecryptionQueue → String → SessionRequest → DecryptionQueue
  | [], sid, req => [(sid, req)]
  | e :: rest, sid, req =>
    if e.1 = sid then (sid, req) :: rest else e :: queueInsert rest sid req

/-- The decryption-failure branch of HiClient.processEvent: when decryption
failed retryably, take the session's queued request or make a fresh one
(whose minIndex field is zero-valued), then set its minIndex to
min(uint32(parsedIndex), request.minIndex) and store it back.  parsedIndex
stands for crypto.ParseMegolmMessageIndex applied to the event's megolm
ciphertext. -/
def processEventQueueUpdate (queue : DecryptionQueue) (decryptionErr : Option DecryptionError)
    (roomID megolmSessionID sender : String) (parsedIndex : Nat) : DecryptionQueue :=
  match decryptionErr with
  | none => queue
  | some err =>
    if isDecryptionErrorRetryable err then
      let req :=
        match queueLookup queue megolmSessionID with
        | some found => found
        | none =>
            { roomID := roomID, sessionID := megolmSessionID, sender := sender, minIndex := 0 }
      queueInsert queue megolmSessionID
        { req with minIndex := min (parsedIndex % 2 ^ 32) req.minIndex }
    else queue

/-- C2: at the first retryable failure of a session, with a ciphertext at
megolm message index 3, the code enqueues a SessionRequest whose recorded
minimum index is 0, not 3: the freshly created request's zero-valued
minIndex field wins min(3, 0), so the recorded minimum never equals the
smallest pending ciphertext index when that index is positive. -/
theorem processEvent_first_failure_records_zero :
    queueLookup
      (processEventQueueUpdate [] (some DecryptionError.noSessionFound)
        "!room" "sessS" "@alice" 3) "sessS"
      = some { roomID := "!room", sessionID := "sessS", sender := "@alice", minIndex := 0 } := by
  decide

/-- queueInsert stores the request under its key. -/
theorem queueLookup_queueInsert (q : DecryptionQueue) (sid : String) (req : SessionRequest) :
    queueLookup (queueInsert q sid req) sid = some req := by
  induction q with
  | nil => simp [queueInsert, queueLookup]
  | cons e rest ih =>
    by_cases h : e.1 = sid
    · simp [queueInsert, queueLookup, h]
    · simp [queueInsert, queueLookup, h, ih]

/-- C6: a decryption error is classified retryable exactly when it is
NoSessionFound, UnknownMessageIndex or GroupSessionWithheld; a non-retryable
error leaves the decryption queue untouched (the failure stays a terminal
per-message record), while a retryable one leaves a SessionRequest queued
for the session. -/
theorem isDecryptionErrorRetryable_spec (e : DecryptionError) (queue : DecryptionQueue)
    (roomID sid sender : String) (parsedIndex : Nat) :
    (isDecryptionErrorRetryable e = true ↔
      e = DecryptionError.noSessionFound ∨ e = DecryptionError.unknownMessageIndex ∨
        e = DecryptionError.groupSessionWithheld) ∧
    (isDecryptionErrorRetryable e = false →
      processEventQueueUpdate queue (some e) roomID sid sender parsedIndex = queue) ∧
    (isDecryptionErrorRetryable e = true →
      ∃ req, queueLookup (processEventQueueUpdate queue (some e) roomID sid sender parsedIndex)
        sid = some req) := by
  refine ⟨?_, ?_, ?_⟩
  · cases e <;> simp [isDecryptionErrorRetryable]
  · intro h
    simp [processEventQueueUpdate, h]
  · intro h
    simp only [processEventQueueUpdate, h, if_true]
    exact ⟨_, queueLookup_queueInsert queue sid _⟩

/-- C6 witness: a MAC-style failure is terminal (queue unchanged), a missing
session is retryable (request queued). -/
theorem isDecryptionErrorRetryable_spec_witness :
    processEventQueueUpdate [] (some (DecryptionError.other "bad mac")) "!r" "s" "@u" 5 = [] ∧
    queueLookup
      (processEventQueueUpdate [] (some DecryptionError.unknownMessageIndex) "!r" "s" "@u" 5) "s"
      ≠ none := by
  refine ⟨(isDecryptionErrorRetryable_spec (DecryptionError.other "bad mac")
    [] "!r" "s" "@u" 5).2.1 rfl, ?_⟩
  rcases (isDecryptionErrorRetryable_spec DecryptionError.unknownMessageIndex
    [] "!r" "s" "@u" 5).2.2 rfl with ⟨req, hreq⟩
  simp [hreq]

/- ## Cross-signing key export and import (crypto/cross_sign_key.go) -/

/-- The base64url alphabet (RFC 4648 section 5). -/
def base64urlAlphabet : List Char :=
  ['A', 'B', 'C', 'D', 'E', 'F', 'G', 'H', 'I', 'J', 'K', 'L', 'M',
   'N', 'O', 'P', 'Q', 'R', 'S', 'T', 'U', 'V', 'W', 'X', 'Y', 'Z',
   'a', 'b', 'c', 'd', 'e', 'f', 'g', 'h', 'i', 'j', 'k', 'l', 'm',
   'n', 'o', 'p', 'q', 'r', 's', 't', 'u', 'v', 'w', 'x', 'y', 'z',
   '0', '1', '2', '3', '4', '5', '6', '7', '8', '9', '-', '_']

/-- The alphabet character for a 6-bit group. -/
def base64urlChar (n : Nat) : Char :=
  base64urlAlphabet.getD n 'A'

/-- Modelled from the spec: unpadded base64url encoding of a byte string
(the jsonbytes.UnpaddedURLBytes JSON marshalling, whose Go source is not
among the staged files; the spec fixes the format as unpadded base64url). -/
def base64urlNoPad : List Nat → List Char
  | [] => []
  | [b1] => [base64urlChar (b1 / 4 % 64), base64urlChar (b1 % 4 * 16)]
  | [b1, b2] =>
      [base64urlChar (b1 / 4 % 64), base64urlChar (b1 % 4 * 16 + b2 / 16),
       base64urlChar (b2 % 16 * 4)]
  | b1 :: b2 :: b3 :: rest =>
      base64urlChar (b1 / 4 % 64) :: base64urlChar (b1 % 4 * 16 + b2 / 16) ::
        base64urlChar (b2 % 16 * 4 + b3 / 64) :: base64urlChar (b3 % 64) ::
        base64urlNoPad rest

/-- pk.Signing: a signing key holding its seed and the public key derived
from it. -/
structure PKSigning where
  seed : List Nat
  publicKey : List Nat
deriving DecidableEq

/-- pk.NewSigningFromSeed: stores the seed and derives the key pair from it.
derivePublic stands for crypto.Ed25519GenerateFromSeed followed by base64
encoding of the public key — an arbitrary deterministic derivation, since
its source is outside the staged files and no claim depends on its values. -/
def newPKSigningFromSeed (derivePublic : List Nat → List Nat) (seed : List Nat) : PKSigning :=
  { seed := seed, publicKey := derivePublic seed }

/-- CrossSigningKeysCache: the three cross-signing keys of the current user. -/
structure CrossSigningKeysCache where
  masterKey : PKSigning
  selfSigningKey : PKSigning
  userSigningKey : PKSigning
deriving DecidableEq

/-- CrossSigningSeeds: the export payload, one seed per key role. -/
structure CrossSigningSeeds where
  masterKey : List Nat
  selfSigningKey : List Nat
  userSigningKey : List Nat
deriving DecidableEq

/-- OlmMachine.ExportCrossSigningKeys: the three seeds of the cached keys. -/
def exportCrossSigningKeys (c : CrossSigningKeysCache) : CrossSigningSeeds :=
  { masterKey := c.masterKey.seed
    selfSigningKey := c.selfSigningKey.seed
    userSigningKey := c.userSigningKey.seed }

/-- OlmMachine.ImportCrossSigningKeys: rebuild all three keys from the seeds
(pk.NewSigningFromSeed never fails). -/
def importCrossSigningKeys (derivePublic : List Nat → List Nat) (keys : CrossSigningSeeds) :
    CrossSigningKeysCache :=
  { masterKey := newPKSigningFromSeed derivePublic keys.masterKey
    selfSigningKey := newPKSigningFromSeed derivePublic keys.selfSigningKey
    userSigningKey := newPKSigningFromSeed derivePublic keys.userSigningKey }

/-- The JSON serialization of CrossSigningSeeds laid out by its struct tags:
field name to unpadded-base64url value, in declaration order. -/
def crossSigningSeedsJSON (s : CrossSigningSeeds) : List (String × String) :=
  [("m.cross_signing.master", String.mk (base64urlNoPad s.masterKey)),
   ("m.cross_signing.self_signing", String.mk (base64urlNoPad s.selfSigningKey)),
   ("m.cross_signing.user_signing", String.mk (base64urlNoPad s.userSigningKey))]

/-- C8: the export serializes exactly three seeds under the fixed logical
names m.cross_signing.master, m.cross_signing.self_signing and
m.cross_signing.user_signing as unpadded base64url, and importing an
exported seed set succeeds with keys whose public keys equal the original
keys' — provided each cached key was itself derived from its seed, which is
how every pk.Signing is built. -/
theorem exportImportCrossSigningKeys_spec (derivePublic : List Nat → List Nat)
    (c : CrossSigningKeysCache)
    (hm : c.masterKey.publicKey = derivePublic c.masterKey.seed)
    (hs : c.selfSigningKey.publicKey = derivePublic c.selfSigningKey.seed)
    (hu : c.userSigningKey.publicKey = derivePublic c.userSigningKey.seed) :
    crossSigningSeedsJSON (exportCrossSigningKeys c) =
      [("m.cross_signing.master", String.mk (base64urlNoPad c.masterKey.seed)),
       ("m.cross_signing.self_signing", String.mk (base64urlNoPad c.selfSigningKey.seed)),
       ("m.cross_signing.user_signing", String.mk (base64urlNoPad c.userSigningKey.seed))] ∧
    (importCrossSigningKeys derivePublic (exportCrossSigningKeys c)).masterKey.publicKey
      = c.masterKey.publicKey ∧
    (importCrossSigningKeys derivePublic (exportCrossSigningKeys c)).selfSigningKey.publicKey
      = c.selfSigningKey.publicKey ∧
    (importCrossSigningKeys derivePublic (exportCrossSigningKeys c)).userSigningKey.publicKey
      = c.userSigningKey.publicKey :=
  ⟨rfl, hm.symm, hs.symm, hu.symm⟩

/-- A concrete stand-in for the Ed25519 public-key derivation. -/
def deriveEx (seed : List Nat) : List Nat :=
  0 :: seed

/-- Three concrete keys, each built from its seed. -/
def cacheEx : CrossSigningKeysCache :=
  { masterKey := newPKSigningFromSeed deriveEx [1, 2]
    selfSigningKey := newPKSigningFromSeed deriveEx [3]
    userSigningKey := newPKSigningFromSeed deriveEx [4, 5, 6, 7] }

/-- C8 witness: exporting cacheEx and importing the seeds reconstructs the
three public keys. -/
theorem exportImportCrossSigningKeys_spec_witness :
    (importCrossSigningKeys deriveEx (exportCrossSigningKeys cacheEx)).masterKey.publicKey
      = cacheEx.masterKey.publicKey ∧
    (importCrossSigningKeys deriveEx (exportCrossSigningKeys cacheEx)).selfSigningKey.publicKey
      = cacheEx.selfSigningKey.publicKey ∧
    (importCrossSigningKeys deriveEx (exportCrossSigningKeys cacheEx)).userSigningKey.publicKey
      = cacheEx.userSigningKey.publicKey :=
  (exportImportCrossSigningKeys_spec deriveEx cacheEx rfl rfl rfl).2

/- ## Megolm session-export wire format (goolm/message/sessionExport.go) -/

/-- sessionExportVersion (0x01). -/
def sessionExportVersion : Nat := 1

/-- message.MegolmSessionExport: Counter is a uint32, RatchetData a [128]byte
array, PublicKey an Ed25519 public key (byte slice). -/
structure MegolmSessionExport where
  counter : Nat
  ratchetData : List Nat
  publicKey : List Nat
deriving DecidableEq

/-- binary.BigEndian.PutUint32. -/
def putUint32BE (n : Nat) : List Nat :=
  [n / 2 ^ 24 % 256, n / 2 ^ 16 % 256, n / 2 ^ 8 % 256, n % 256]

/-- binary.BigEndian.Uint32 of the first four bytes. -/
def getUint32BE : List Nat → Nat
  | b0 :: b1 :: b2 :: b3 :: _ => b0 * 2 ^ 24 + b1 * 2 ^ 16 + b2 * 2 ^ 8 + b3
  | _ => 0

/-- Go copy of src into a zero-initialised region of the given length:
min(length, src) bytes are written, the rest stays zero. -/
def copyFixed (len : Nat) (src : List Nat) : List Nat :=
  src.take len ++ List.replicate (len - src.length) 0

/-- MegolmSessionExport.Encode: version byte, big-endian counter, 128 ratchet
bytes at offset 5, public key at offset 133, in a 165-byte output. -/
def MegolmSessionExport.encode (s : MegolmSessionExport) : List Nat :=
  sessionExportVersion ::
    (putUint32BE (s.counter % 2 ^ 32) ++ copyFixed 128 s.ratchetData
      ++ copyFixed 32 s.publicKey)

/-- The two decode failures: ErrBadInput for a wrong length, ErrBadVersion
for a wrong leading byte. -/
inductive SessionExportDecodeError where
  | badInput
  | badVersion
deriving DecidableEq

/-- MegolmSessionExport.Decode: reject any input that is not exactly 165
bytes, then any whose first byte is not the version; otherwise read the
counter from bytes 1..4, the ratchet data from bytes 5..132 and the public
key from bytes 133..164. -/
def MegolmSessionExport.decode (input : List Nat) :
    Except SessionExportDecodeError MegolmSessionExport :=
  if input.length = 165 then
    if input.headD 0 = sessionExportVersion then
      Except.ok
        { counter := getUint32BE (input.drop 1)
          ratchetData := (input.drop 5).take 128
          publicKey := input.drop 133 }
    else Except.error SessionExportDecodeError.badVersion
  else Except.error SessionExportDecodeError.badInput

/-- copyFixed always fills its region exactly. -/
theorem copyFixed_length (len : Nat) (src : List Nat) : (copyFixed len src).length = len := by
  simp [copyFixed]
  omega

/-- copyFixed is the identity on a source of exactly the region's length. -/
theorem copyFixed_of_length (len : Nat) (src : List Nat) (h : src.length = len) :
    copyFixed len src = src := by
  simp [copyFixed, h, List.take_of_length_le h.le]

/-- Encode emits exactly 165 bytes. -/
theorem megolmSessionExport_encode_length (s : MegolmSessionExport) :
    (MegolmSessionExport.encode s).length = 165 := by
  simp [MegolmSessionExport.encode, putUint32BE, copyFixed_length]

/-- C9: Encode always returns exactly 165 bytes starting with the version
byte 0x01; Decode rejects every input whose length is not 165 or whose first
byte is not the version; and for any export whose public key is 32 bytes
(with its 128-byte ratchet array and uint32 counter), Decode inverts
Encode. -/
theorem megolmSessionExport_spec (s : MegolmSessionExport) (input : List Nat) :
    (MegolmSessionExport.encode s).length = 165 ∧
    (MegolmSessionExport.encode s).headD 0 = sessionExportVersion ∧
    (input.length ≠ 165 →
      MegolmSessionExport.decode input = Except.error SessionExportDecodeError.badInput) ∧
    (input.length = 165 → input.headD 0 ≠ sessionExportVersion →
      MegolmSessionExport.decode input = Except.error SessionExportDecodeError.badVersion) ∧
    (s.counter < 2 ^ 32 → s.ratchetData.length = 128 → s.publicKey.length = 32 →
      MegolmSessionExport.decode (MegolmSessionExport.encode s) = Except.ok s) := by
  refine ⟨megolmSessionExport_encode_length s, rfl, ?_, ?_, ?_⟩
  · intro h
    simp [MegolmSessionExport.decode, h]
  · intro h1 h2
    unfold MegolmSessionExport.decode
    rw [if_pos h1, if_neg h2]
  · intro hc hr hp
    obtain ⟨c, rd, pk⟩ := s
    have hc' : c < 2 ^ 32 := hc
    have hr' : rd.length = 128 := hr
    have hp' : pk.length = 32 := hp
    have hcm : c % 2 ^ 32 = c := Nat.mod_eq_of_lt hc'
    have henc : MegolmSessionExport.encode ⟨c, rd, pk⟩
        = (sessionExportVersion :: putUint32BE c) ++ (rd ++ pk) := by
      show sessionExportVersion ::
          (putUint32BE (c % 2 ^ 32) ++ copyFixed 128 rd ++ copyFixed 32 pk) = _
      rw [hcm, copyFixed_of_length _ _ hr', copyFixed_of_length _ _ hp',
        List.cons_append, List.append_assoc]
    have hlen : (MegolmSessionExport.encode ⟨c, rd, pk⟩).length = 165 :=
      megolmSessionExport_encode_length _
    have hhead : (MegolmSessionExport.encode ⟨c, rd, pk⟩).headD 0 = sessionExportVersion := rfl
    have h5 : ((sessionExportVersion :: putUint32BE c) : List Nat).length = 5 := rfl
    have hdrop1 : (MegolmSessionExport.encode ⟨c, rd, pk⟩).drop 1
        = putUint32BE c ++ (rd ++ pk) := by
      rw [henc]
      rfl
    have hcounter : getUint32BE ((MegolmSessionExport.encode ⟨c, rd, pk⟩).drop 1) = c := by
      rw [hdrop1]
      have h32 : c < 4294967296 := by
        have := hc'
        norm_num at this
        exact this
      simp only [putUint32BE, List.cons_append, List.nil_append, getUint32BE]
      norm_num
      omega
    have hratchet : ((MegolmSessionExport.encode ⟨c, rd, pk⟩).drop 5).take 128 = rd := by
      rw [henc, List.drop_left' h5, List.take_left' hr']
    have hpub : (MegolmSessionExport.encode ⟨c, rd, pk⟩).drop 133 = pk := by
      have henc133 : MegolmSessionExport.encode ⟨c, rd, pk⟩
          = ((sessionExportVersion :: putUint32BE c) ++ rd) ++ pk := by
        rw [henc, List.append_assoc]
      have h133 : (((sessionExportVersion :: putUint32BE c) : List Nat) ++ rd).length = 133 := by
        simp [putUint32BE, hr']
      rw [henc133, List.drop_left' h133]
    unfold MegolmSessionExport.decode
    rw [if_pos hlen, if_pos hhead, hcounter, hratchet, hpub]

/-- A concrete export message with a 32-byte public key. -/
def sessionExportEx : MegolmSessionExport where
  counter := 7
  ratchetData := List.replicate 128 5
  publicKey := List.replicate 32 9

/-- C9 witness: decoding the encoding of sessionExportEx gives it back. -/
theorem megolmSessionExport_spec_witness :
    MegolmSessionExport.decode (MegolmSessionExport.encode sessionExportEx)
      = Except.ok sessionExportEx :=
  (megolmSessionExport_spec sessionExportEx []).2.2.2.2 (by decide)
    (by simp [sessionExportEx]) (by simp [sessionExportEx])
